import Mathlib

/-!
# Verification of the Excel reconciliation engine

Shallow embedding of the reconciliation and aggregation core of the
Validations repository (two-dataset transaction reconciliation keyed by
`txn_id`), together with the column-mapping validation and summary-statistic
computations from the React client (`App.jsx`, `Instructions.md` uploader
variants, `SummaryStats`).

The backend engine (classifier, rate calculator, aggregator, report
assembler) is not present in the source tree; those components are modelled
from the specification, as marked in their doc comments. The client-side
code (`SummaryStats`, both `FileUploader` variants) is embedded directly
from the source.
-/

namespace Validations

/-- A calendar date, as produced by the record normalizer from the
`created` column. -/
structure DateYMD where
  year : Nat
  month : Nat
  day : Nat
deriving DecidableEq, Repr

/-- Modelled from the spec: the canonical `Record` shape (§3 DATA MODEL)
produced by the Record Normalizer, which is absent from the source tree.
Numeric fields are rationals (decimals). -/
structure Record where
  key : String
  revenue : ℚ
  sale_amount : ℚ
  status : String
  brand : String
  created : DateYMD
  click_id : String
  conversion_id : Option String
deriving DecidableEq, Repr

/-- A field-level difference between the record for a key in dataset A and
the record for the same key in dataset B. -/
structure FieldDiff where
  field : String
  valueA : String
  valueB : String
deriving DecidableEq, Repr

/-- Number of records in a dataset carrying the given key. -/
def countKey (ds : List Record) (k : String) : Nat :=
  (ds.filter (fun r => r.key == k)).length

/-- A key is duplicated within a dataset when it occurs more than once. -/
def isDup (ds : List Record) (k : String) : Bool :=
  decide (2 ≤ countKey ds k)

/-- First record of a dataset with the given key, if any. -/
def findByKey (ds : List Record) (k : String) : Option Record :=
  ds.find? (fun r => r.key == k)

/-- Modelled from the spec: numeric field comparison of the Classifier
(§4.3, absent from the source tree): `revenue` and `sale_amount` are
compared with a fixed numeric tolerance, equal when the absolute
difference is strictly below the tolerance. -/
def numEq (x y tol : ℚ) : Bool :=
  decide (|x - y| < tol)

/-- Modelled from the spec: the field-by-field comparison of two records
with the same key (§4.3, absent from the source tree): `revenue` and
`sale_amount` under the numeric tolerance, `status` and `brand` as
normalized strings, `created` as calendar dates. Each differing field
yields one `FieldDiff`. -/
def fieldDiffs (a b : Record) (tol : ℚ) : List FieldDiff :=
  (if numEq a.revenue b.revenue tol then [] else
    [⟨"revenue", toString a.revenue, toString b.revenue⟩]) ++
  (if numEq a.sale_amount b.sale_amount tol then [] else
    [⟨"sale_amount", toString a.sale_amount, toString b.sale_amount⟩]) ++
  (if a.status == b.status then [] else [⟨"status", a.status, b.status⟩]) ++
  (if a.brand == b.brand then [] else [⟨"brand", a.brand, b.brand⟩]) ++
  (if a.created == b.created then [] else
    [⟨"created", toString a.created.year, toString b.created.year⟩])

/-- The four partition buckets for a key that is not duplicated in either
dataset. -/
inductive KeyClass where
  | matched
  | mismatched
  | onlyInA
  | onlyInB
deriving DecidableEq, Repr

/-- Modelled from the spec: classification of a single non-duplicated key
(§4.3 steps 3-4, absent from the source tree). Returns `none` for a key
duplicated in either dataset (such keys are only recorded in the duplicate
buckets). -/
def classifyKey (A B : List Record) (tol : ℚ) (k : String) : Option KeyClass :=
  if isDup A k || isDup B k then none
  else
    match findByKey A k, findByKey B k with
    | some a, some b => if fieldDiffs a b tol = [] then some .matched else some .mismatched
    | some _, none => some .onlyInA
    | none, some _ => some .onlyInB
    | none, none => none

/-- The deduplicated, ascending (lexicographic) list of keys appearing in
either dataset, giving the deterministic report order (§4.3 ordering). -/
def allKeys (A B : List Record) : List String :=
  (((A ++ B).map Record.key).dedup).mergeSort (fun a b => a ≤ b)

/-- Modelled from the spec: the `ClassificationResult` (§3): the four
partition buckets plus the two additive duplicate annotations. -/
structure ClassificationResult where
  matched : List String
  mismatched : List (String × List FieldDiff)
  onlyInA : List String
  onlyInB : List String
  duplicateInA : List String
  duplicateInB : List String
deriving DecidableEq, Repr

/-- Modelled from the spec: the Classifier (§4.3, absent from the source
tree). Partitions the union of keys of both datasets, in ascending key
order, into matched / mismatched (with field diffs) / only-in-A /
only-in-B, with duplicated keys diverted to the duplicate buckets. -/
def classify (A B : List Record) (tol : ℚ) : ClassificationResult where
  matched := (allKeys A B).filter (fun k => classifyKey A B tol k = some .matched)
  mismatched := (allKeys A B).filterMap (fun k =>
    if classifyKey A B tol k = some .mismatched then
      match findByKey A k, findByKey B k with
      | some a, some b => some (k, fieldDiffs a b tol)
      | _, _ => none
    else none)
  onlyInA := (allKeys A B).filter (fun k => classifyKey A B tol k = some .onlyInA)
  onlyInB := (allKeys A B).filter (fun k => classifyKey A B tol k = some .onlyInB)
  duplicateInA := (allKeys A B).filter (fun k => isDup A k)
  duplicateInB := (allKeys A B).filter (fun k => isDup B k)

/-- How many of the four partition buckets (matched, mismatched, only-in-A,
only-in-B) contain the given key. -/
def bucketCount (c : ClassificationResult) (k : String) : ℕ :=
  (if k ∈ c.matched then 1 else 0) + (if k ∈ c.mismatched.map Prod.fst then 1 else 0) +
  (if k ∈ c.onlyInA then 1 else 0) + (if k ∈ c.onlyInB then 1 else 0)

theorem mem_allKeys {A B : List Record} {k : String} :
    k ∈ allKeys A B ↔ k ∈ (A ++ B).map Record.key := by
  simp [allKeys]

theorem allKeys_nodup (A B : List Record) : (allKeys A B).Nodup :=
  ((List.mergeSort_perm (((A ++ B).map Record.key).dedup) _).nodup_iff).mpr
    (List.nodup_dedup _)

theorem allKeys_sorted (A B : List Record) : (allKeys A B).Sorted (· ≤ ·) := by
  have h := @List.sorted_mergeSort String (fun a b : String => a ≤ b)
    (fun a b c hab hbc => by
      simp only [decide_eq_true_iff] at *
      exact le_trans hab hbc)
    (fun a b => by simpa using le_total a b)
    (((A ++ B).map Record.key).dedup)
  exact h.imp (fun hab => by simpa using hab)

theorem findByKey_isSome_iff {ds : List Record} {k : String} :
    (findByKey ds k).isSome = true ↔ k ∈ ds.map Record.key := by
  simp only [findByKey, List.find?_isSome, List.mem_map]
  constructor
  · rintro ⟨r, hr, hk⟩
    exact ⟨r, hr, by simpa using hk⟩
  · rintro ⟨r, hr, hk⟩
    exact ⟨r, hr, by simpa using hk⟩

theorem classifyKey_of_dup (tol : ℚ) {A B : List Record} {k : String}
    (h : isDup A k = true ∨ isDup B k = true) :
    classifyKey A B tol k = none := by
  rcases h with h | h <;> simp [classifyKey, h]

theorem classifyKey_mismatched_find {A B : List Record} {tol : ℚ} {k : String}
    (h : classifyKey A B tol k = some .mismatched) :
    ∃ a b, findByKey A k = some a ∧ findByKey B k = some b ∧
      fieldDiffs a b tol ≠ [] := by
  by_cases hd : isDup A k || isDup B k
  · simp [classifyKey, hd] at h
  · rw [classifyKey, if_neg (by simpa using hd)] at h
    cases hA : findByKey A k <;> cases hB : findByKey B k <;> rw [hA, hB] at h
    · exact absurd h (by simp)
    · exact absurd h (by simp)
    · exact absurd h (by simp)
    · rename_i a b
      by_cases hz : fieldDiffs a b tol = []
      · simp [hz] at h
      · exact ⟨a, b, rfl, rfl, hz⟩

theorem map_fst_mismatched (A B : List Record) (tol : ℚ) :
    (classify A B tol).mismatched.map Prod.fst =
      (allKeys A B).filter (fun k => classifyKey A B tol k = some .mismatched) := by
  show ((allKeys A B).filterMap _).map Prod.fst = _
  generalize allKeys A B = l
  induction l with
  | nil => rfl
  | cons a t ih =>
    by_cases h : classifyKey A B tol a = some .mismatched
    · obtain ⟨x, y, hx, hy, -⟩ := classifyKey_mismatched_find h
      rw [List.filterMap_cons, if_pos h, hx, hy]
      simp only [List.map_cons, List.filter_cons, ih]
      rw [if_pos (by simpa using h)]
    · rw [List.filterMap_cons, if_neg h]
      simp only [List.filter_cons, ih]
      rw [if_neg (by simpa using h)]

theorem mem_matched_iff {A B : List Record} {tol : ℚ} {k : String} :
    k ∈ (classify A B tol).matched ↔
      k ∈ allKeys A B ∧ classifyKey A B tol k = some .matched := by
  simp [classify, List.mem_filter]

theorem mem_mismatched_fst_iff {A B : List Record} {tol : ℚ} {k : String} :
    k ∈ (classify A B tol).mismatched.map Prod.fst ↔
      k ∈ allKeys A B ∧ classifyKey A B tol k = some .mismatched := by
  rw [map_fst_mismatched]
  simp [List.mem_filter]

theorem mem_onlyInA_iff {A B : List Record} {tol : ℚ} {k : String} :
    k ∈ (classify A B tol).onlyInA ↔
      k ∈ allKeys A B ∧ classifyKey A B tol k = some .onlyInA := by
  simp [classify, List.mem_filter]

theorem mem_onlyInB_iff {A B : List Record} {tol : ℚ} {k : String} :
    k ∈ (classify A B tol).onlyInB ↔
      k ∈ allKeys A B ∧ classifyKey A B tol k = some .onlyInB := by
  simp [classify, List.mem_filter]

theorem mem_duplicateInA_iff {A B : List Record} {tol : ℚ} {k : String} :
    k ∈ (classify A B tol).duplicateInA ↔ k ∈ allKeys A B ∧ isDup A k = true := by
  simp [classify, List.mem_filter]

theorem mem_duplicateInB_iff {A B : List Record} {tol : ℚ} {k : String} :
    k ∈ (classify A B tol).duplicateInB ↔ k ∈ allKeys A B ∧ isDup B k = true := by
  simp [classify, List.mem_filter]

theorem classifyKey_isSome (tol : ℚ) {A B : List Record} {k : String}
    (hk : k ∈ allKeys A B) (hA : isDup A k = false) (hB : isDup B k = false) :
    ∃ c, classifyKey A B tol k = some c := by
  rw [classifyKey, if_neg (by simp [hA, hB])]
  have hmem := mem_allKeys.mp hk
  rw [List.map_append, List.mem_append] at hmem
  cases hfa : findByKey A k with
  | none =>
    cases hfb : findByKey B k with
    | none =>
      exfalso
      rcases hmem with h | h
      · have hs := findByKey_isSome_iff.mpr h
        rw [hfa] at hs
        simp at hs
      · have hs := findByKey_isSome_iff.mpr h
        rw [hfb] at hs
        simp at hs
    | some b => exact ⟨.onlyInB, rfl⟩
  | some a =>
    cases hfb : findByKey B k with
    | none => exact ⟨.onlyInA, rfl⟩
    | some b =>
      by_cases hz : fieldDiffs a b tol = []
      · exact ⟨.matched, if_pos hz⟩
      · exact ⟨.mismatched, if_neg hz⟩

theorem isDup_mem_allKeys_left {A B : List Record} {k : String}
    (h : isDup A k = true) : k ∈ allKeys A B := by
  rw [mem_allKeys, List.map_append, List.mem_append]
  left
  have h2 : 2 ≤ (A.filter (fun r => r.key == k)).length := by
    simpa [isDup, countKey] using h
  have hne : A.filter (fun r => r.key == k) ≠ [] := by
    intro hcontra
    rw [hcontra] at h2
    simp at h2
  obtain ⟨r, hr⟩ := List.exists_mem_of_ne_nil _ hne
  exact List.mem_map.mpr
    ⟨r, (List.mem_filter.mp hr).1, by simpa using (List.mem_filter.mp hr).2⟩

theorem isDup_mem_allKeys_right {A B : List Record} {k : String}
    (h : isDup B k = true) : k ∈ allKeys A B := by
  rw [mem_allKeys, List.map_append, List.mem_append]
  right
  have h2 : 2 ≤ (B.filter (fun r => r.key == k)).length := by
    simpa [isDup, countKey] using h
  have hne : B.filter (fun r => r.key == k) ≠ [] := by
    intro hcontra
    rw [hcontra] at h2
    simp at h2
  obtain ⟨r, hr⟩ := List.exists_mem_of_ne_nil _ hne
  exact List.mem_map.mpr
    ⟨r, (List.mem_filter.mp hr).1, by simpa using (List.mem_filter.mp hr).2⟩

/-- C1: the classifier's output partitions the union of the keys of both
datasets: a key not duplicated in either dataset lies in exactly one of
Matched, Mismatched, OnlyInA, OnlyInB; a duplicated key lies in
DuplicateInA and/or DuplicateInB (exactly as duplicated per side) and in
none of the first four buckets. -/
theorem partition_invariant (A B : List Record) (tol : ℚ) (k : String)
    (hk : k ∈ allKeys A B) :
    (isDup A k = false → isDup B k = false →
      bucketCount (classify A B tol) k = 1) ∧
    (isDup A k = true ∨ isDup B k = true →
      bucketCount (classify A B tol) k = 0 ∧
      (k ∈ (classify A B tol).duplicateInA ↔ isDup A k = true) ∧
      (k ∈ (classify A B tol).duplicateInB ↔ isDup B k = true)) := by
  constructor
  · intro hA hB
    obtain ⟨c, hc⟩ := classifyKey_isSome tol hk hA hB
    cases c <;>
      simp only [bucketCount, mem_matched_iff, mem_mismatched_fst_iff, mem_onlyInA_iff,
        mem_onlyInB_iff, hc, hk] <;>
      simp
  · intro hdup
    have hnone := classifyKey_of_dup tol hdup
    refine ⟨?_, ?_, ?_⟩
    · simp only [bucketCount, mem_matched_iff, mem_mismatched_fst_iff, mem_onlyInA_iff,
        mem_onlyInB_iff, hnone, hk]
      simp
    · simp [mem_duplicateInA_iff, hk]
    · simp [mem_duplicateInB_iff, hk]

/-- C5: a key duplicated within dataset A or within dataset B never receives
a field diff, never lands in Matched/Mismatched/OnlyInA/OnlyInB, and is
recorded in the duplicate bucket of each side on which it is duplicated. -/
theorem duplicates_never_compared (A B : List Record) (tol : ℚ) (k : String)
    (hdup : isDup A k = true ∨ isDup B k = true) :
    (∀ e ∈ (classify A B tol).mismatched, e.1 ≠ k) ∧
    k ∉ (classify A B tol).matched ∧
    k ∉ (classify A B tol).onlyInA ∧
    k ∉ (classify A B tol).onlyInB ∧
    (isDup A k = true → k ∈ (classify A B tol).duplicateInA) ∧
    (isDup B k = true → k ∈ (classify A B tol).duplicateInB) := by
  have hnone := classifyKey_of_dup tol hdup
  refine ⟨?_, ?_, ?_, ?_, ?_, ?_⟩
  · intro e he hek
    have hmem : k ∈ (classify A B tol).mismatched.map Prod.fst :=
      List.mem_map.mpr ⟨e, he, hek⟩
    rw [mem_mismatched_fst_iff, hnone] at hmem
    simp at hmem
  · rw [mem_matched_iff]
    rintro ⟨-, hc⟩
    rw [hnone] at hc
    simp at hc
  · rw [mem_onlyInA_iff]
    rintro ⟨-, hc⟩
    rw [hnone] at hc
    simp at hc
  · rw [mem_onlyInB_iff]
    rintro ⟨-, hc⟩
    rw [hnone] at hc
    simp at hc
  · intro h
    exact mem_duplicateInA_iff.mpr ⟨isDup_mem_allKeys_left h, h⟩
  · intro h
    exact mem_duplicateInB_iff.mpr ⟨isDup_mem_allKeys_right h, h⟩

/-- The classifier's numeric tolerance comparison, characterized: a
`revenue` (resp. `sale_amount`) field diff is produced exactly when the
absolute difference reaches the tolerance; strictly smaller differences
produce no diff. (Amended form of C3: a difference exactly equal to the
tolerance IS flagged, since the comparator accepts only strictly smaller
differences.) -/
theorem tolerance_boundary (a b : Record) (tol : ℚ) :
    ((∃ d ∈ fieldDiffs a b tol, d.field = "revenue") ↔
      tol ≤ |a.revenue - b.revenue|) ∧
    ((∃ d ∈ fieldDiffs a b tol, d.field = "sale_amount") ↔
      tol ≤ |a.sale_amount - b.sale_amount|) := by
  have hrev : (numEq a.revenue b.revenue tol = false) ↔
      tol ≤ |a.revenue - b.revenue| := by
    simp [numEq, not_lt]
  have hsale : (numEq a.sale_amount b.sale_amount tol = false) ↔
      tol ≤ |a.sale_amount - b.sale_amount| := by
    simp [numEq, not_lt]
  rw [← hrev, ← hsale]
  by_cases h1 : numEq a.revenue b.revenue tol <;>
  by_cases h2 : numEq a.sale_amount b.sale_amount tol <;>
  by_cases h3 : a.status == b.status <;>
  by_cases h4 : a.brand == b.brand <;>
  by_cases h5 : a.created == b.created <;>
  simp [fieldDiffs, h1, h2, h3, h4, h5]

/-- Scenario date 2024-01-05. -/
def dateJan5 : DateYMD := ⟨2024, 1, 5⟩

/-- A dataset-A record with revenue 0. -/
def recA : Record := ⟨"T1", 0, 50, "approved", "BrandX", dateJan5, "c1", none⟩

/-- A dataset-B record for the same key whose revenue differs from `recA`'s
by exactly the default tolerance 0.01. -/
def recB : Record := ⟨"T1", 1/100, 50, "approved", "BrandX", dateJan5, "c1", none⟩

theorem recA_recB_mismatched :
    classifyKey [recA] [recB] (1/100) "T1" = some .mismatched := by
  have h1 : isDup [recA] "T1" = false := by simp [isDup, countKey, recA]
  have h2 : isDup [recB] "T1" = false := by simp [isDup, countKey, recB]
  have h3 : findByKey [recA] "T1" = some recA := by simp [findByKey, recA, List.find?]
  have h4 : findByKey [recB] "T1" = some recB := by simp [findByKey, recB, List.find?]
  have hne : numEq recA.revenue recB.revenue (1/100) = false := by
    simp only [recA, recB, numEq, decide_eq_false_iff_not, not_lt, zero_sub, abs_neg]
    rw [abs_of_nonneg (by norm_num)]
  have h5 : fieldDiffs recA recB (1/100) ≠ [] := by
    intro hcontra
    rw [fieldDiffs, hne] at hcontra
    simp at hcontra
  rw [classifyKey, h1, h2]
  simp only [Bool.or_self, Bool.false_eq_true, if_false]
  rw [h3, h4]
  exact if_neg h5

/-- Counterexample to C3 as stated: two records whose revenues differ by
exactly the configured tolerance (0.01) ARE flagged as a mismatch by the
classifier (they are placed in Mismatched, not Matched). -/
theorem tolerance_claim_counterexample :
    |recA.revenue - recB.revenue| = (1/100 : ℚ) ∧
    "T1" ∈ (classify [recA] [recB] (1/100)).mismatched.map Prod.fst ∧
    "T1" ∉ (classify [recA] [recB] (1/100)).matched := by
  refine ⟨?_, ?_, ?_⟩
  · simp only [recA, recB, zero_sub, abs_neg]
    rw [abs_of_nonneg (by norm_num)]
  · rw [mem_mismatched_fst_iff]
    exact ⟨mem_allKeys.mpr (by simp [recA]), recA_recB_mismatched⟩
  · rw [mem_matched_iff]
    rintro ⟨-, hc⟩
    rw [recA_recB_mismatched] at hc
    simp at hc

/-- Witness: the partition invariant applied to the concrete one-record
datasets built from `recA` and `recB`. -/
theorem partition_invariant_witness :
    bucketCount (classify [recA] [recB] (1/100)) "T1" = 1 :=
  (partition_invariant [recA] [recB] (1/100) "T1"
      (mem_allKeys.mpr (by simp [recA]))).1
    (by simp [isDup, countKey, recA])
    (by simp [isDup, countKey, recB])

/-- First record of a key duplicated within dataset A (Scenario 4). -/
def recD1 : Record := ⟨"T4", 10, 5, "approved", "BrandX", dateJan5, "c1", none⟩

/-- Second record with the same key as `recD1` (Scenario 4). -/
def recD2 : Record := ⟨"T4", 20, 10, "approved", "BrandX", dateJan5, "c1", none⟩

/-- Witness: the duplicate-handling theorem applied to Scenario 4's
datasets. -/
theorem duplicates_never_compared_witness :
    "T4" ∉ (classify [recD1, recD2] [recD1] (1/100)).matched ∧
    "T4" ∈ (classify [recD1, recD2] [recD1] (1/100)).duplicateInA := by
  have h := duplicates_never_compared [recD1, recD2] [recD1] (1/100) "T4"
    (Or.inl (by simp [isDup, countKey, recD1, recD2]))
  exact ⟨h.2.1, h.2.2.2.2.1 (by simp [isDup, countKey, recD1, recD2])⟩

/-- Modelled from the spec: rounding to `p` decimal places, used by the
Rate Calculator (§4.4, absent from the source tree). -/
def roundTo (q : ℚ) (p : ℕ) : ℚ :=
  (round (q * 10 ^ p) : ℤ) / 10 ^ p

/-- Modelled from the spec: a `RateEntry` (§3): key, revenue, sale_amount,
the computed rate (null on division by zero) and the data-quality flag. -/
structure RateEntry where
  key : String
  revenue : ℚ
  sale_amount : ℚ
  rate : Option ℚ
  flag : String
deriving DecidableEq, Repr

/-- Modelled from the spec: the Rate Calculator (§4.4, absent from the
source tree): `rate = round(revenue / sale_amount, precision)`, and when
`sale_amount == 0` the rate is null with flag `division_by_zero`. -/
def calcRate (r : Record) (precision : ℕ) : RateEntry :=
  if r.sale_amount = 0 then
    ⟨r.key, r.revenue, r.sale_amount, none, "division_by_zero"⟩
  else
    ⟨r.key, r.revenue, r.sale_amount,
      some (roundTo (r.revenue / r.sale_amount) precision), "ok"⟩

theorem roundTo_close (q : ℚ) (p : ℕ) :
    |roundTo q p - q| ≤ 1 / (2 * 10 ^ p) := by
  have hpos : (0 : ℚ) < 10 ^ p := by positivity
  have hstep : roundTo q p - q = ((round (q * 10 ^ p) : ℚ) - q * 10 ^ p) / 10 ^ p := by
    rw [roundTo]
    field_simp
    ring
  rw [hstep, abs_div, abs_of_pos hpos,
    show (1 : ℚ) / (2 * 10 ^ p) = (1 / 2) / 10 ^ p by ring]
  gcongr
  rw [abs_sub_comm]
  exact abs_sub_round (q * 10 ^ p)

theorem roundTo_decimal (q : ℚ) (p : ℕ) :
    ∃ n : ℤ, roundTo q p * 10 ^ p = n := by
  refine ⟨round (q * 10 ^ p), ?_⟩
  rw [roundTo]
  field_simp

/-- C2: for every Record, the Rate Calculator is total: when
`sale_amount ≠ 0` it returns flag "ok" and the rate
`round(revenue / sale_amount, precision)` — a value within half an ulp of
the true quotient, representable with `precision` decimal digits — and
when `sale_amount = 0` it returns a null rate with flag
"division_by_zero". -/
theorem rate_calculator_correct (r : Record) (p : ℕ) :
    (r.sale_amount ≠ 0 →
      (calcRate r p).flag = "ok" ∧
      (calcRate r p).rate = some (roundTo (r.revenue / r.sale_amount) p) ∧
      |roundTo (r.revenue / r.sale_amount) p - r.revenue / r.sale_amount| ≤
        1 / (2 * 10 ^ p) ∧
      ∃ n : ℤ, roundTo (r.revenue / r.sale_amount) p * 10 ^ p = n) ∧
    (r.sale_amount = 0 →
      (calcRate r p).rate = none ∧ (calcRate r p).flag = "division_by_zero") := by
  constructor
  · intro h
    rw [calcRate, if_neg h]
    exact ⟨rfl, rfl, roundTo_close _ p, roundTo_decimal _ p⟩
  · intro h
    rw [calcRate, if_pos h]
    exact ⟨rfl, rfl⟩

/-- Scenario 1 record: revenue 100, sale amount 50. -/
def rec1 : Record := ⟨"T1", 100, 50, "approved", "BrandX", dateJan5, "c1", none⟩

/-- Witness: the Rate Calculator contract applied to Scenario 1's record
(sale_amount = 50 ≠ 0). -/
theorem rate_calculator_correct_witness :
    (calcRate rec1 2).flag = "ok" ∧
    (calcRate rec1 2).rate = some (roundTo (rec1.revenue / rec1.sale_amount) 2) ∧
    |roundTo (rec1.revenue / rec1.sale_amount) 2 - rec1.revenue / rec1.sale_amount| ≤
      1 / (2 * 10 ^ 2) ∧
    ∃ n : ℤ, roundTo (rec1.revenue / rec1.sale_amount) 2 * 10 ^ 2 = n :=
  (rate_calculator_correct rec1 2).1 (by norm_num [rec1])

/-- Aggregation bucket key: (brand, year of created, month of created). -/
abbrev BKey := String × Nat × Nat

/-- The (brand, period) bucket a record belongs to (§4.5). -/
def bucketKey (r : Record) : BKey := (r.brand, r.created.year, r.created.month)

/-- Running accumulator for one aggregate bucket: total revenue, record
count, and the sum and count of the valid (non-null) rates. -/
structure BucketAcc where
  total_revenue : ℚ
  record_count : ℕ
  rate_sum : ℚ
  rate_count : ℕ
deriving DecidableEq, Repr

/-- The accumulator of an empty bucket. -/
def emptyAcc : BucketAcc := ⟨0, 0, 0, 0⟩

/-- Fold one record (with its computed rate) into a bucket accumulator. -/
def accStep (a : BucketAcc) (rev : ℚ) (rate : Option ℚ) : BucketAcc :=
  ⟨a.total_revenue + rev, a.record_count + 1,
    a.rate_sum + rate.getD 0, a.rate_count + (if rate.isSome then 1 else 0)⟩

/-- Insert-or-update of the association list of bucket accumulators. -/
def upsert (acc : List (BKey × BucketAcc)) (k : BKey) (rev : ℚ) (rate : Option ℚ) :
    List (BKey × BucketAcc) :=
  match acc with
  | [] => [(k, accStep emptyAcc rev rate)]
  | (k', a) :: t =>
    if k = k' then (k', accStep a rev rate) :: t
    else (k', a) :: upsert t k rev rate

/-- Modelled from the spec: the Aggregator's grouping pass (§4.5, absent
from the source tree): one left-to-right pass over a dataset's records
accumulating per-(brand, period) totals. -/
def aggregateAccs (rs : List Record) (p : ℕ) : List (BKey × BucketAcc) :=
  rs.foldl (fun acc r => upsert acc (bucketKey r) r.revenue (calcRate r p).rate) []

/-- Modelled from the spec: an `AggregateBucket` (§3). -/
structure AggregateBucket where
  brand : String
  year : Nat
  month : Nat
  total_revenue : ℚ
  record_count : ℕ
  average_rate : Option ℚ
deriving DecidableEq, Repr

/-- Modelled from the spec: the bucket's mean rate over the valid rates
only; a bucket with zero valid rates reports a null average (§4.5). -/
def finalizeAvg (a : BucketAcc) : Option ℚ :=
  if a.rate_count = 0 then none else some (a.rate_sum / a.rate_count)

/-- Modelled from the spec: the Aggregator (§4.5, absent from the source
tree) for one dataset: grouping pass followed by averaging. -/
def aggregate (rs : List Record) (p : ℕ) : List AggregateBucket :=
  (aggregateAccs rs p).map
    (fun e => ⟨e.1.1, e.1.2.1, e.1.2.2, e.2.total_revenue, e.2.record_count,
      finalizeAvg e.2⟩)

/-- The records of `rs` falling in bucket `k` (declarative grouping). -/
def groupOf (rs : List Record) (k : BKey) : List Record :=
  rs.filter (fun r => bucketKey r = k)

/-- The non-null rates of a record list (declarative). -/
def validRates (rs : List Record) (p : ℕ) : List ℚ :=
  rs.filterMap (fun r => (calcRate r p).rate)

/-- Association-list lookup on the accumulator list. -/
def lookupAcc (acc : List (BKey × BucketAcc)) (k : BKey) : Option BucketAcc :=
  (acc.find? (fun e => e.1 = k)).map Prod.snd

/-- Folding the records of a group into an accumulator. -/
def accOfGroup (a : BucketAcc) (g : List Record) (p : ℕ) : BucketAcc :=
  g.foldl (fun x r => accStep x r.revenue (calcRate r p).rate) a

theorem lookupAcc_cons (k0 : BKey) (a0 : BucketAcc) (t : List (BKey × BucketAcc))
    (k : BKey) :
    lookupAcc ((k0, a0) :: t) k = if k0 = k then some a0 else lookupAcc t k := by
  by_cases h : k0 = k <;> simp [lookupAcc, List.find?, h]

theorem lookupAcc_upsert (acc : List (BKey × BucketAcc)) (k k' : BKey)
    (rev : ℚ) (rate : Option ℚ) :
    lookupAcc (upsert acc k rev rate) k' =
      if k' = k then some (accStep ((lookupAcc acc k).getD emptyAcc) rev rate)
      else lookupAcc acc k' := by
  induction acc with
  | nil =>
    by_cases h : k' = k
    · subst h
      simp [upsert, lookupAcc]
    · simp [upsert, lookupAcc, List.find?, h, Ne.symm h]
  | cons hd t ih =>
    obtain ⟨k0, a0⟩ := hd
    by_cases h0 : k = k0
    · subst h0
      rw [show upsert ((k, a0) :: t) k rev rate = (k, accStep a0 rev rate) :: t
        from by simp [upsert]]
      by_cases h : k' = k
      · subst h
        simp [lookupAcc_cons]
      · have hne : ¬(k = k') := fun hc => h hc.symm
        simp [lookupAcc_cons, h, hne]
    · rw [show upsert ((k0, a0) :: t) k rev rate = (k0, a0) :: upsert t k rev rate
        from by simp [upsert, h0]]
      by_cases h : k' = k0
      · subst h
        have hne : ¬(k' = k) := fun hc => h0 hc.symm
        simp [lookupAcc_cons, hne]
      · have hne : ¬(k0 = k') := fun hc => h hc.symm
        have hne' : ¬(k0 = k) := fun hc => h0 hc.symm
        simp [lookupAcc_cons, hne, hne', ih]

theorem lookupAcc_foldl (rs : List Record) (p : ℕ) :
    ∀ (acc : List (BKey × BucketAcc)) (k : BKey),
      lookupAcc (rs.foldl
        (fun acc r => upsert acc (bucketKey r) r.revenue (calcRate r p).rate) acc) k =
        match lookupAcc acc k with
        | some a => some (accOfGroup a (groupOf rs k) p)
        | none =>
          if groupOf rs k = [] then none
          else some (accOfGroup emptyAcc (groupOf rs k) p) := by
  induction rs with
  | nil =>
    intro acc k
    cases h : lookupAcc acc k <;> simp [groupOf, accOfGroup, h]
  | cons r t ih =>
    intro acc k
    rw [List.foldl_cons, ih]
    by_cases hk : bucketKey r = k
    · have hg : groupOf (r :: t) k = r :: groupOf t k := by
        simp [groupOf, hk]
      rw [lookupAcc_upsert, if_pos hk.symm, hk, hg]
      cases hacc : lookupAcc acc k <;>
        simp [accOfGroup, hacc]
    · have hg : groupOf (r :: t) k = groupOf t k := by
        simp [groupOf, hk]
      rw [lookupAcc_upsert, if_neg (fun hc => hk hc.symm), hg]

theorem mem_map_fst_upsert {acc : List (BKey × BucketAcc)} {k : BKey}
    {rev : ℚ} {rate : Option ℚ} {x : BKey}
    (hx : x ∈ (upsert acc k rev rate).map Prod.fst) :
    x = k ∨ x ∈ acc.map Prod.fst := by
  induction acc with
  | nil =>
    simp [upsert] at hx
    exact Or.inl hx
  | cons hd t ih =>
    obtain ⟨k0, a0⟩ := hd
    by_cases h0 : k = k0
    · subst h0
      rw [show upsert ((k, a0) :: t) k rev rate = (k, accStep a0 rev rate) :: t
        from by simp [upsert]] at hx
      simp at hx
      rcases hx with h | h
      · exact Or.inl h
      · exact Or.inr (by simp [h])
    · rw [show upsert ((k0, a0) :: t) k rev rate = (k0, a0) :: upsert t k rev rate
        from by simp [upsert, h0]] at hx
      simp at hx
      rcases hx with h | h
      · exact Or.inr (by simp [h])
      · rcases ih (by simpa using h) with h' | h'
        · exact Or.inl h'
        · exact Or.inr (by simp [h'])

theorem nodup_map_fst_upsert {acc : List (BKey × BucketAcc)} {k : BKey}
    {rev : ℚ} {rate : Option ℚ} (h : (acc.map Prod.fst).Nodup) :
    ((upsert acc k rev rate).map Prod.fst).Nodup := by
  induction acc with
  | nil => simp [upsert]
  | cons hd t ih =>
    obtain ⟨k0, a0⟩ := hd
    rw [List.map_cons, List.nodup_cons] at h
    by_cases h0 : k = k0
    · subst h0
      rw [show upsert ((k, a0) :: t) k rev rate = (k, accStep a0 rev rate) :: t
        from by simp [upsert]]
      simp only [List.map_cons, List.nodup_cons]
      exact h
    · rw [show upsert ((k0, a0) :: t) k rev rate = (k0, a0) :: upsert t k rev rate
        from by simp [upsert, h0]]
      simp only [List.map_cons, List.nodup_cons]
      refine ⟨?_, ih h.2⟩
      intro hc
      rcases mem_map_fst_upsert hc with h' | h'
      · exact h0 h'.symm
      · exact absurd h' h.1

theorem nodup_map_fst_aggregateAccs (rs : List Record) (p : ℕ) :
    ((aggregateAccs rs p).map Prod.fst).Nodup := by
  rw [aggregateAccs]
  have hgen : ∀ (l : List Record) (acc : List (BKey × BucketAcc)),
      (acc.map Prod.fst).Nodup →
      ((l.foldl
        (fun acc r => upsert acc (bucketKey r) r.revenue (calcRate r p).rate)
        acc).map Prod.fst).Nodup := by
    intro l
    induction l with
    | nil => intro acc h; simpa using h
    | cons r t ih =>
      intro acc h
      rw [List.foldl_cons]
      exact ih _ (nodup_map_fst_upsert h)
  exact hgen rs [] (by simp)

theorem lookupAcc_of_mem {acc : List (BKey × BucketAcc)}
    (h : (acc.map Prod.fst).Nodup) {k : BKey} {a : BucketAcc}
    (hm : (k, a) ∈ acc) : lookupAcc acc k = some a := by
  induction acc with
  | nil => simp at hm
  | cons hd t ih =>
    obtain ⟨k0, a0⟩ := hd
    rw [List.map_cons, List.nodup_cons] at h
    rcases List.mem_cons.mp hm with h' | h'
    · obtain ⟨h1, h2⟩ := Prod.ext_iff.mp h'
      subst h1
      subst h2
      simp [lookupAcc_cons]
    · rw [lookupAcc_cons]
      have hne : k0 ≠ k := by
        intro hc
        subst hc
        exact h.1 (List.mem_map.mpr ⟨(k0, a), h', rfl⟩)
      rw [if_neg hne]
      exact ih h.2 h'

theorem accOfGroup_spec (p : ℕ) (g : List Record) :
    ∀ a : BucketAcc,
      accOfGroup a g p =
        ⟨a.total_revenue + (g.map Record.revenue).sum,
          a.record_count + g.length,
          a.rate_sum + (validRates g p).sum,
          a.rate_count + (validRates g p).length⟩ := by
  induction g with
  | nil =>
    intro a
    cases a
    simp [accOfGroup, validRates]
  | cons r t ih =>
    intro a
    have hstep : accOfGroup a (r :: t) p =
        accOfGroup (accStep a r.revenue (calcRate r p).rate) t p := rfl
    rw [hstep, ih]
    cases hrate : (calcRate r p).rate <;>
      simp [accStep, validRates, hrate, List.filterMap_cons, add_assoc] <;>
      omega

theorem lookupAcc_aggregateAccs (rs : List Record) (p : ℕ) (k : BKey) :
    lookupAcc (aggregateAccs rs p) k =
      if groupOf rs k = [] then none
      else some ⟨((groupOf rs k).map Record.revenue).sum, (groupOf rs k).length,
        (validRates (groupOf rs k) p).sum, (validRates (groupOf rs k) p).length⟩ := by
  rw [aggregateAccs, lookupAcc_foldl]
  rw [show lookupAcc [] k = none from by simp [lookupAcc]]
  by_cases hg : groupOf rs k = []
  · simp [hg]
  · simp [hg, accOfGroup_spec, emptyAcc]

/-- C9: every aggregate bucket reports the totals of exactly its group's
records, and its average_rate is the mean of the group's non-null rates —
null (not zero) when the group has no valid rate; a rate is non-null
exactly when its entry's flag is "ok". -/
theorem aggregator_average_rate (rs : List Record) (p : ℕ) (b : AggregateBucket)
    (hb : b ∈ aggregate rs p) :
    b.total_revenue =
      ((groupOf rs (b.brand, b.year, b.month)).map Record.revenue).sum ∧
    b.record_count = (groupOf rs (b.brand, b.year, b.month)).length ∧
    (validRates (groupOf rs (b.brand, b.year, b.month)) p = [] →
      b.average_rate = none) ∧
    (validRates (groupOf rs (b.brand, b.year, b.month)) p ≠ [] →
      b.average_rate =
        some ((validRates (groupOf rs (b.brand, b.year, b.month)) p).sum /
          ((validRates (groupOf rs (b.brand, b.year, b.month)) p).length : ℚ))) ∧
    (∀ r : Record, (calcRate r p).rate ≠ none ↔ (calcRate r p).flag = "ok") := by
  have hflag : ∀ r : Record, (calcRate r p).rate ≠ none ↔ (calcRate r p).flag = "ok" := by
    intro r
    by_cases h : r.sale_amount = 0 <;> simp [calcRate, h]
  obtain ⟨e, he, hbe⟩ := List.mem_map.mp hb
  obtain ⟨⟨kb, ky, km⟩, a⟩ := e
  have hlook := lookupAcc_of_mem (nodup_map_fst_aggregateAccs rs p) he
  rw [lookupAcc_aggregateAccs] at hlook
  subst hbe
  simp only at *
  by_cases hg : groupOf rs (kb, ky, km) = []
  · rw [if_pos hg] at hlook
    exact absurd hlook (by simp)
  · rw [if_neg hg] at hlook
    have ha := (Option.some.inj hlook).symm
    subst ha
    refine ⟨rfl, rfl, ?_, ?_, hflag⟩
    · intro hv
      simp [finalizeAvg, hv]
    · intro hv
      have hlen : (validRates (groupOf rs (kb, ky, km)) p).length ≠ 0 := by
        simpa [List.length_eq_zero] using hv
      simp [finalizeAvg, hlen]

/-- Scenario 5, first BrandX record of 2024-01: revenue 100, sale 50. -/
def rec5a : Record := ⟨"T5a", 100, 50, "approved", "BrandX", ⟨2024, 1, 10⟩, "c1", none⟩

/-- Scenario 5, second BrandX record of 2024-01: revenue 200, sale 100. -/
def rec5b : Record := ⟨"T5b", 200, 100, "approved", "BrandX", ⟨2024, 1, 20⟩, "c1", none⟩

/-- The Scenario 5 aggregate bucket: total 300, count 2, average 2.00. -/
def bucket5 : AggregateBucket := ⟨"BrandX", 2024, 1, 300, 2, some 2⟩

theorem calcRate_rec5a : calcRate rec5a 2 = ⟨"T5a", 100, 50, some 2, "ok"⟩ := by
  rw [calcRate, if_neg (by norm_num [rec5a])]
  have h1 : rec5a.revenue / rec5a.sale_amount = ((2 : ℤ) : ℚ) := by
    norm_num [rec5a]
  have h2 : roundTo ((2 : ℤ) : ℚ) 2 = 2 := by
    rw [roundTo, show ((2 : ℤ) : ℚ) * 10 ^ 2 = ((200 : ℤ) : ℚ) from by norm_num,
      round_intCast]
    norm_num
  rw [h1, h2]
  simp [rec5a]

theorem calcRate_rec5b : calcRate rec5b 2 = ⟨"T5b", 200, 100, some 2, "ok"⟩ := by
  rw [calcRate, if_neg (by norm_num [rec5b])]
  have h1 : rec5b.revenue / rec5b.sale_amount = ((2 : ℤ) : ℚ) := by
    norm_num [rec5b]
  have h2 : roundTo ((2 : ℤ) : ℚ) 2 = 2 := by
    rw [roundTo, show ((2 : ℤ) : ℚ) * 10 ^ 2 = ((200 : ℤ) : ℚ) from by norm_num,
      round_intCast]
    norm_num
  rw [h1, h2]
  simp [rec5b]

theorem aggregate_scenario5 : aggregate [rec5a, rec5b] 2 = [bucket5] := by
  rw [aggregate, aggregateAccs]
  simp only [List.foldl_cons, List.foldl_nil, calcRate_rec5a, calcRate_rec5b]
  rw [show bucketKey rec5a = ("BrandX", 2024, 1) from by simp [bucketKey, rec5a]]
  rw [show bucketKey rec5b = ("BrandX", 2024, 1) from by simp [bucketKey, rec5b]]
  simp only [upsert, accStep, emptyAcc]
  norm_num [rec5a, rec5b, finalizeAvg, bucket5]

/-- Witness: the aggregator theorem applied to Scenario 5's records and
bucket. -/
theorem aggregator_average_rate_witness :
    bucket5.total_revenue =
      ((groupOf [rec5a, rec5b] (bucket5.brand, bucket5.year, bucket5.month)).map
        Record.revenue).sum ∧
    bucket5.record_count =
      (groupOf [rec5a, rec5b] (bucket5.brand, bucket5.year, bucket5.month)).length ∧
    (validRates (groupOf [rec5a, rec5b]
        (bucket5.brand, bucket5.year, bucket5.month)) 2 = [] →
      bucket5.average_rate = none) ∧
    (validRates (groupOf [rec5a, rec5b]
        (bucket5.brand, bucket5.year, bucket5.month)) 2 ≠ [] →
      bucket5.average_rate =
        some ((validRates (groupOf [rec5a, rec5b]
            (bucket5.brand, bucket5.year, bucket5.month)) 2).sum /
          ((validRates (groupOf [rec5a, rec5b]
            (bucket5.brand, bucket5.year, bucket5.month)) 2).length : ℚ))) ∧
    (∀ r : Record, (calcRate r 2).rate ≠ none ↔ (calcRate r 2).flag = "ok") :=
  aggregator_average_rate [rec5a, rec5b] 2 bucket5
    (by rw [aggregate_scenario5]; exact List.mem_singleton.mpr rfl)

/-- Modelled from the spec: the summary counters of the ComparisonReport
(§3, absent from the source tree). -/
structure Summary where
  total_records_file1 : ℕ
  total_records_file2 : ℕ
  matching_records_count : ℕ
  mismatched_records_count : ℕ
  duplicates_file1_count : ℕ
  duplicates_file2_count : ℕ
  only_in_file1_count : ℕ
  only_in_file2_count : ℕ
  total_revenue_file1 : ℚ
  total_revenue_file2 : ℚ
  status_revenue_file1 : List (String × ℚ)
  status_revenue_file2 : List (String × ℚ)
deriving DecidableEq, Repr

/-- Modelled from the spec: total revenue of a file, accumulated by a
single fold over its records (§4.5: the file-level arithmetic sum). -/
def sumRevenue (rs : List Record) : ℚ :=
  rs.foldl (fun s r => s + r.revenue) 0

/-- Insert-or-update of the per-status revenue association list. -/
def upsertStatus (acc : List (String × ℚ)) (st : String) (rev : ℚ) :
    List (String × ℚ) :=
  match acc with
  | [] => [(st, rev)]
  | (s, v) :: t => if st = s then (s, v + rev) :: t else (s, v) :: upsertStatus t st rev

/-- Modelled from the spec: StatusRevenue (§3, §4.5): revenue summed by
status over all records of a dataset. -/
def statusRevenue (rs : List Record) : List (String × ℚ) :=
  rs.foldl (fun acc r => upsertStatus acc r.status r.revenue) []

/-- The configuration options recognized by `reconcile` (§6). -/
structure Config where
  rate_precision : ℕ
  numeric_tolerance : ℚ
deriving DecidableEq, Repr

/-- The default configuration: precision 2, tolerance 0.01. -/
def defaultConfig : Config := ⟨2, 1/100⟩

/-- Modelled from the spec: the immutable `ComparisonReport` (§3, absent
from the source tree). -/
structure ComparisonReport where
  classification : ClassificationResult
  rates_file1 : List RateEntry
  rates_file2 : List RateEntry
  aggregates_file1 : List AggregateBucket
  aggregates_file2 : List AggregateBucket
  summary : Summary
deriving DecidableEq, Repr

/-- Modelled from the spec: the Report Assembler's summary counters (§3):
file-level totals come straight from the file's records, category counts
from the classification. -/
def buildSummary (A B : List Record) (cls : ClassificationResult) : Summary :=
  ⟨A.length, B.length, cls.matched.length, cls.mismatched.length,
    cls.duplicateInA.length, cls.duplicateInB.length,
    cls.onlyInA.length, cls.onlyInB.length,
    sumRevenue A, sumRevenue B, statusRevenue A, statusRevenue B⟩

/-- Modelled from the spec: the core entry point (§6, absent from the
source tree): classification, per-record rates, per-dataset aggregates,
and the assembled summary. -/
def reconcile (A B : List Record) (cfg : Config) : ComparisonReport :=
  let cls := classify A B cfg.numeric_tolerance
  ⟨cls, A.map (fun r => calcRate r cfg.rate_precision),
    B.map (fun r => calcRate r cfg.rate_precision),
    aggregate A cfg.rate_precision, aggregate B cfg.rate_precision,
    buildSummary A B cls⟩

theorem sumRevenue_eq (rs : List Record) :
    sumRevenue rs = (rs.map Record.revenue).sum := by
  have hgen : ∀ (l : List Record) (s : ℚ),
      l.foldl (fun s r => s + r.revenue) s = s + (l.map Record.revenue).sum := by
    intro l
    induction l with
    | nil => intro s; simp
    | cons r t ih => intro s; simp [ih, add_assoc]
  simpa using hgen rs 0

/-- C4: the summary's total revenue per file equals the arithmetic sum of
`revenue` over all records of that file (duplicates, mismatches and
only-in-one-file records included), and does not depend on the other
dataset (hence not on the classification outcome). -/
theorem revenue_conservation (A B : List Record) (cfg : Config) :
    (reconcile A B cfg).summary.total_revenue_file1 = (A.map Record.revenue).sum ∧
    (reconcile A B cfg).summary.total_revenue_file2 = (B.map Record.revenue).sum ∧
    (∀ B' : List Record,
      (reconcile A B' cfg).summary.total_revenue_file1 =
        (reconcile A B cfg).summary.total_revenue_file1) := by
  exact ⟨sumRevenue_eq A, sumRevenue_eq B, fun B' => rfl⟩

/-- The five progress phases (§4.6; listed in the `processing-steps` markup
of the legacy page embedded in the source tree). -/
inductive Phase where
  | loading
  | validation
  | comparison
  | calculation
  | report
deriving DecidableEq, Repr

/-- Appending one `notify(step, percentage)` call to the emitted trace. -/
def notify (tr : List (Phase × ℕ)) (p : Phase) (pct : ℕ) : List (Phase × ℕ) :=
  tr ++ [(p, pct)]

/-- Modelled from the spec: the Report Assembler's run (§4.6, absent from
the source tree): the five phases execute in order, each followed by one
progress notification, and the assembled report is returned with the
emitted trace. -/
def reconcileWithProgress (A B : List Record) (cfg : Config) :
    List (Phase × ℕ) × ComparisonReport :=
  let tr1 := notify [] .loading 20
  let tr2 := notify tr1 .validation 40
  let cls := classify A B cfg.numeric_tolerance
  let tr3 := notify tr2 .comparison 60
  let rates1 := A.map (fun r => calcRate r cfg.rate_precision)
  let rates2 := B.map (fun r => calcRate r cfg.rate_precision)
  let tr4 := notify tr3 .calculation 80
  let rep : ComparisonReport :=
    ⟨cls, rates1, rates2, aggregate A cfg.rate_precision,
      aggregate B cfg.rate_precision, buildSummary A B cls⟩
  let tr5 := notify tr4 .report 100
  (tr5, rep)

/-- C8: every run — including on empty datasets — notifies exactly the five
phases in the strict order loading, validation, comparison, calculation,
report (with their percentages), and produces the same report as
`reconcile`. -/
theorem progress_phases (A B : List Record) (cfg : Config) :
    ((reconcileWithProgress A B cfg).1.map Prod.fst) =
      [.loading, .validation, .comparison, .calculation, .report] ∧
    ((reconcileWithProgress A B cfg).1.map Prod.snd) = [20, 40, 60, 80, 100] ∧
    (reconcileWithProgress A B cfg).2 = reconcile A B cfg :=
  ⟨rfl, rfl, rfl⟩

/-- C7: `reconcile` is deterministic — identical inputs and config give an
identical report — and every classification list is sorted by key
ascending in lexicographic string order, so the output ordering is
reproducible. -/
theorem reconcile_deterministic (A B A' B' : List Record) (cfg cfg' : Config)
    (hA : A = A') (hB : B = B') (hcfg : cfg = cfg') :
    reconcile A B cfg = reconcile A' B' cfg' ∧
    (reconcile A B cfg).classification.matched.Sorted (· ≤ ·) ∧
    ((reconcile A B cfg).classification.mismatched.map Prod.fst).Sorted (· ≤ ·) ∧
    (reconcile A B cfg).classification.onlyInA.Sorted (· ≤ ·) ∧
    (reconcile A B cfg).classification.onlyInB.Sorted (· ≤ ·) ∧
    (reconcile A B cfg).classification.duplicateInA.Sorted (· ≤ ·) ∧
    (reconcile A B cfg).classification.duplicateInB.Sorted (· ≤ ·) := by
  subst hA
  subst hB
  subst hcfg
  have hcls : (reconcile A B cfg).classification =
      classify A B cfg.numeric_tolerance := rfl
  refine ⟨rfl, ?_, ?_, ?_, ?_, ?_, ?_⟩ <;> rw [hcls]
  · exact (allKeys_sorted A B).filter _
  · rw [map_fst_mismatched]
    exact (allKeys_sorted A B).filter _
  · exact (allKeys_sorted A B).filter _
  · exact (allKeys_sorted A B).filter _
  · exact (allKeys_sorted A B).filter _
  · exact (allKeys_sorted A B).filter _

/-- Witness: determinism and sortedness at a concrete input. -/
theorem reconcile_deterministic_witness :
    reconcile [recD1, recD2] [recA] defaultConfig =
      reconcile [recD1, recD2] [recA] defaultConfig ∧
    (reconcile [recD1, recD2] [recA] defaultConfig).classification.matched.Sorted
      (· ≤ ·) ∧
    ((reconcile [recD1, recD2] [recA] defaultConfig).classification.mismatched.map
      Prod.fst).Sorted (· ≤ ·) ∧
    (reconcile [recD1, recD2] [recA] defaultConfig).classification.onlyInA.Sorted
      (· ≤ ·) ∧
    (reconcile [recD1, recD2] [recA] defaultConfig).classification.onlyInB.Sorted
      (· ≤ ·) ∧
    (reconcile [recD1, recD2] [recA] defaultConfig).classification.duplicateInA.Sorted
      (· ≤ ·) ∧
    (reconcile [recD1, recD2] [recA] defaultConfig).classification.duplicateInB.Sorted
      (· ≤ ·) :=
  reconcile_deterministic [recD1, recD2] [recA] [recD1, recD2] [recA]
    defaultConfig defaultConfig rfl rfl rfl

/-- JavaScript's `Math.round` on the rational values appearing in the
summary view: floor(x + 1/2). -/
def jsRound (q : ℚ) : ℤ := ⌊q + 1 / 2⌋

/-- Embedded from `SummaryStats` (src/client/src/App.jsx lines 163-167):
the match percentage shown in the summary view: matching records divided
by the combined record count of both files, times 100, `Math.round`ed;
guarded to 0 when the combined count is zero. -/
def matchPercentage
    (total_records_file1 total_records_file2 matching_records_count : ℕ) : ℤ :=
  let totalRecords := total_records_file1 + total_records_file2
  if totalRecords > 0 then
    jsRound ((matching_records_count : ℚ) / (totalRecords : ℚ) * 100)
  else 0

/-- C10: the displayed match percentage equals matching_records_count over
the sum of both files' record counts, times 100, rounded to the nearest
integer, and equals 0 (instead of a division by zero) when both files have
zero records. -/
theorem match_percentage_correct (f1 f2 m : ℕ) :
    (0 < f1 + f2 →
      matchPercentage f1 f2 m =
        round ((m : ℚ) / ((f1 : ℚ) + (f2 : ℚ)) * 100)) ∧
    (f1 + f2 = 0 → matchPercentage f1 f2 m = 0) := by
  constructor
  · intro h
    rw [round_eq]
    simp only [matchPercentage, jsRound, if_pos h]
    push_cast
    rfl
  · intro h
    simp [matchPercentage, h]

/-- Witness: the match percentage formula at one record in file 1, zero in
file 2, one matching record. -/
theorem match_percentage_correct_witness :
    matchPercentage 1 0 1 = round ((1 : ℚ) / ((1 : ℚ) + (0 : ℚ)) * 100) :=
  (match_percentage_correct 1 0 1).1 (by norm_num)

/-- Embedded from the `FileUploader` in src/client/src/App.jsx (line 318):
the six required logical columns; click_id and conversion_id are not in
the list. -/
def requiredColumns : List String :=
  ["txn_id", "revenue", "sale_amount", "status", "brand", "created"]

/-- Embedded from `handleSubmit` (src/client/src/App.jsx lines 388-389):
the required columns with no mapped header for a file (an unmapped or
empty selection is falsy in the source, here `none`). -/
def missingColumns (mapping : String → Option String) : List String :=
  requiredColumns.filter (fun c => (mapping c).isNone)

/-- Embedded from `handleSubmit` (src/client/src/App.jsx lines 391-394):
the submission is rejected with a missing-columns error iff either file
has a nonempty missing-columns list. -/
def submitRejected (m1 m2 : String → Option String) : Bool :=
  decide (0 < (missingColumns m1).length) ||
  decide (0 < (missingColumns m2).length)

/-- Embedded from the `FileUploader` variant in src/Instructions.md
(lines 152-160): its base required columns additionally include
click_id. -/
def baseRequiredColumns : List String :=
  ["txn_id", "revenue", "sale_amount", "status", "brand", "created", "click_id"]

/-- Embedded from `getRequiredColumns` (src/Instructions.md lines 163-168):
a file whose lower-cased name contains "trackier" additionally requires
conversion_id. -/
def getRequiredColumns (fileName : String) : List String :=
  if 2 ≤ (fileName.toLower.splitOn "trackier").length then
    baseRequiredColumns ++ ["conversion_id"]
  else baseRequiredColumns

/-- Embedded from `validateMapping` (src/Instructions.md lines 237-242):
every required column of the file must be mapped. -/
def validateMapping (fileName : String) (mapping : String → Option String) : Bool :=
  (getRequiredColumns fileName).all (fun c => (mapping c).isSome)

/-- A mapping covering exactly the six spec-required columns — in
particular, click_id is unmapped. -/
def sixColumnMapping : String → Option String :=
  fun c => if c ∈ requiredColumns then some c else none

/-- Counterexample to C6 as stated: a mapping with all six required fields
mapped and click_id absent passes the App.jsx submission check, but the
Instructions.md uploader variant REJECTS it (its `baseRequiredColumns`
also demands click_id), so absence of click_id does cause a failure
there. -/
theorem required_columns_counterexample :
    (∀ c ∈ requiredColumns, (sixColumnMapping c).isSome = true) ∧
    submitRejected sixColumnMapping sixColumnMapping = false ∧
    validateMapping "file1.xlsx" sixColumnMapping = false := by
  refine ⟨by decide, by decide, ?_⟩
  rw [validateMapping, getRequiredColumns]
  by_cases h : 2 ≤ ("file1.xlsx".toLower.splitOn "trackier").length
  · rw [if_pos h]
    decide
  · rw [if_neg h]
    decide

/-- C6 amended: the App.jsx uploader rejects a submission exactly when one
of the six required fields (txn_id, revenue, sale_amount, status, brand,
created) is unmapped for one of the two files, with click_id and
conversion_id never required; the Instructions.md uploader variant instead
accepts a file's mapping exactly when all of its required columns are
mapped, where click_id is always required and conversion_id is required
exactly for file names containing "trackier". -/
theorem required_columns_amended (fileName : String)
    (m1 m2 : String → Option String) :
    (submitRejected m1 m2 = false ↔
      (∀ c ∈ requiredColumns, (m1 c).isSome = true) ∧
      (∀ c ∈ requiredColumns, (m2 c).isSome = true)) ∧
    (validateMapping fileName m1 = true ↔
      ∀ c ∈ getRequiredColumns fileName, (m1 c).isSome = true) ∧
    "click_id" ∉ requiredColumns ∧
    "conversion_id" ∉ requiredColumns ∧
    "click_id" ∈ getRequiredColumns fileName ∧
    ("conversion_id" ∈ getRequiredColumns fileName ↔
      2 ≤ (fileName.toLower.splitOn "trackier").length) := by
  refine ⟨?_, ?_, by decide, by decide, ?_, ?_⟩
  · simp [submitRejected, missingColumns, List.length_pos, List.filter_eq_nil_iff,
      Option.isNone_iff_eq_none, Option.isSome_iff_ne_none]
  · simp [validateMapping, List.all_eq_true]
  · rw [getRequiredColumns]
    by_cases h : 2 ≤ (fileName.toLower.splitOn "trackier").length
    · rw [if_pos h]
      decide
    · rw [if_neg h]
      decide
  · rw [getRequiredColumns]
    by_cases h : 2 ≤ (fileName.toLower.splitOn "trackier").length
    · rw [if_pos h]
      simp [h]
    · rw [if_neg h]
      constructor
      · intro hc
        exact absurd hc (by decide)
      · intro hc
        exact absurd hc h

/-- Witness: the amended required-columns characterization at a concrete
file name and mapping. -/
theorem required_columns_amended_witness :
    (submitRejected sixColumnMapping sixColumnMapping = false ↔
      (∀ c ∈ requiredColumns, (sixColumnMapping c).isSome = true) ∧
      (∀ c ∈ requiredColumns, (sixColumnMapping c).isSome = true)) ∧
    (validateMapping "file1.xlsx" sixColumnMapping = true ↔
      ∀ c ∈ getRequiredColumns "file1.xlsx", (sixColumnMapping c).isSome = true) ∧
    "click_id" ∉ requiredColumns ∧
    "conversion_id" ∉ requiredColumns ∧
    "click_id" ∈ getRequiredColumns "file1.xlsx" ∧
    ("conversion_id" ∈ getRequiredColumns "file1.xlsx" ↔
      2 ≤ ("file1.xlsx".toLower.splitOn "trackier").length) :=
  required_columns_amended "file1.xlsx" sixColumnMapping sixColumnMapping

end Validations
